import Mathlib

/-!  Shallow embedding of the wcag-contrast crate (src/lib.rs): a `Color` of
three 8-bit channels, the WCAG relative luminance and contrast ratio with the
crate's `f64` arithmetic idealised as real numbers, and the hex parser
`impl FromStr for Color` with Rust's two failure modes (a returned
`ParseIntError` and an out-of-bounds slice panic) made explicit. -/

namespace WcagContrast

/-- A color with red, green and blue channels, each a `u8` (modelled as
`Fin 256`); mirrors `struct Color { r: u8, g: u8, b: u8 }`. -/
structure Color where
  r : Fin 256
  g : Fin 256
  b : Fin 256
deriving DecidableEq, Repr

/-- `Color::new(r, g, b)`. -/
def Color.new (r g b : Fin 256) : Color := ⟨r, g, b⟩

/-- `Color::rgb(&self) -> (u8, u8, u8)`. -/
def Color.rgb (self : Color) : Fin 256 × Fin 256 × Fin 256 :=
  (self.r, self.g, self.b)

/-- `impl From<(u8, u8, u8)> for Color`, i.e. `from_rgb_tuple`. -/
def Color.from_rgb_tuple (tuple : Fin 256 × Fin 256 × Fin 256) : Color :=
  Color.new tuple.1 tuple.2.1 tuple.2.2

/-- `Color::component_relative_luminance(color_component: u8) -> f64`:
normalise the channel to `[0,1]` and apply the sRGB transfer function,
with `f64::powf` idealised as `Real.rpow`. -/
noncomputable def Color.component_relative_luminance (color_component : Fin 256) : ℝ :=
  let c : ℝ := ((color_component : ℕ) : ℝ) / 255
  if c ≤ 0.03928 then c / 12.92 else ((c + 0.055) / 1.055) ^ (2.4 : ℝ)

/-- `Color::relative_luminance(&self) -> f64`: the weighted sum of the three
per-channel luminances. -/
noncomputable def Color.relative_luminance (self : Color) : ℝ :=
  let red_luminance := Color.component_relative_luminance self.r
  let green_luminance := Color.component_relative_luminance self.g
  let blue_luminance := Color.component_relative_luminance self.b
  0.2126 * red_luminance + 0.7152 * green_luminance + 0.0722 * blue_luminance

/-- `Color::contrast_ratio(&self, other: &Color) -> f64`: order the two
luminances and return `(lighter + 0.05) / (darker + 0.05)`. -/
noncomputable def Color.contrast_ratio (self other : Color) : ℝ :=
  let self_luminance := self.relative_luminance
  let other_luminance := other.relative_luminance
  let pair := if self_luminance > other_luminance
    then (self_luminance, other_luminance)
    else (other_luminance, self_luminance)
  (pair.1 + 0.05) / (pair.2 + 0.05)

/-- Rust `char::to_digit(16)`: the numeric value of a base-16 digit
(`0-9`, `a-f`, `A-F`), `none` for any other character. -/
def to_digit16 (ch : Char) : Option Nat :=
  if 48 ≤ ch.toNat ∧ ch.toNat ≤ 57 then some (ch.toNat - 48)
  else if 97 ≤ ch.toNat ∧ ch.toNat ≤ 102 then some (ch.toNat - 87)
  else if 65 ≤ ch.toNat ∧ ch.toNat ≤ 70 then some (ch.toNat - 55)
  else none

/-- One step of Rust `u8::from_str_radix(_, 16)` for a non-negative number:
multiply the accumulator by the radix with `checked_mul` and add the next
digit with `checked_add`; `none` on a non-digit character or `u8` overflow. -/
def radix16_step_add (acc : Fin 256) (ch : Char) : Option (Fin 256) :=
  match to_digit16 ch with
  | none => none
  | some d =>
    if h : (acc : ℕ) * 16 ≤ 255 then
      if h2 : (acc : ℕ) * 16 + d ≤ 255 then some ⟨(acc : ℕ) * 16 + d, by omega⟩
      else none
    else none

/-- Rust `u8::from_str_radix(src, 16)` on the characters of `src`: an
optional leading `+` sign (a `-` is stripped only for signed integer types,
so for `u8` it simply fails the digit loop as a non-digit), then one or more
base-16 digits folded with checked arithmetic. `none` stands for the
returned `ParseIntError` (empty input, invalid digit, or overflow). -/
def u8_from_str_radix16 (src : List Char) : Option (Fin 256) :=
  match src with
  | [] => none
  | first :: rest =>
    if first = '+' then
      match rest with
      | [] => none
      | _ => rest.foldlM radix16_step_add 0
    else
      src.foldlM radix16_step_add 0

/-- The observable result of a call to `Color::from_str`: a color, a returned
`ParseIntError` (`err`), or a panic raised by an out-of-range `&s[a..b]`
slice (`oob`). -/
inductive FromStrResult where
  | ok (c : Color)
  | err
  | oob
deriving DecidableEq, Repr

/-- Rust's `&s[a..b]` on an ASCII string: the characters at indices
`[a, b)` when `a ≤ b ≤ s.len()`; otherwise the call panics (`none`). -/
def strSlice (s : List Char) (a b : Nat) : Option (List Char) :=
  if a ≤ b ∧ b ≤ s.length then some ((s.drop a).take (b - a)) else none

/-- `impl FromStr for Color::from_str(s)`: slice each two-character field
(panicking when the range is out of bounds), parse it in base 16 (the `?`
operator returns the error), and build the color. The three fields are
processed in order, so an error in an early field is returned before a later
out-of-range slice can panic. -/
def color_from_str (s : List Char) : FromStrResult :=
  match strSlice s 1 3 with
  | none => .oob
  | some rfield =>
    match u8_from_str_radix16 rfield with
    | none => .err
    | some r =>
      match strSlice s 3 5 with
      | none => .oob
      | some gfield =>
        match u8_from_str_radix16 gfield with
        | none => .err
        | some g =>
          match strSlice s 5 7 with
          | none => .oob
          | some bfield =>
            match u8_from_str_radix16 bfield with
            | none => .err
            | some b => .ok (Color.new r g b)

/-- The per-channel sRGB linearisation exactly as the spec words it: for a
channel value `v` in `[0,255]` normalise `c = v / 255.0`; when
`c <= 0.03928` the linear value is `c / 12.92`, otherwise it is
`((c + 0.055) / 1.055) ^ 2.4`. -/
noncomputable def specChannelLinear (v : Fin 256) : ℝ :=
  let c : ℝ := ((v : ℕ) : ℝ) / 255
  if c ≤ 0.03928 then c / 12.92 else ((c + 0.055) / 1.055) ^ (2.4 : ℝ)

/-- The luminance combination exactly as the spec words it:
`L = 0.2126 * linear_r + 0.7152 * linear_g + 0.0722 * linear_b`. -/
noncomputable def specRelativeLuminance (color : Color) : ℝ :=
  0.2126 * specChannelLinear color.r + 0.7152 * specChannelLinear color.g
    + 0.0722 * specChannelLinear color.b

/-! ### Per-channel luminance lemmas -/

/-- Unfolding of `component_relative_luminance` with the `let` reduced. -/
lemma component_def (v : Fin 256) :
    Color.component_relative_luminance v =
      if ((v : ℕ) : ℝ) / 255 ≤ 0.03928 then ((v : ℕ) : ℝ) / 255 / 12.92
      else ((((v : ℕ) : ℝ) / 255 + 0.055) / 1.055) ^ (2.4 : ℝ) := rfl

/-- On the discrete channel values the branch condition `c ≤ 0.03928` is
exactly `v ≤ 10` (since `10/255 ≤ 0.03928 < 11/255`). -/
lemma component_cond_iff (v : Fin 256) :
    ((v : ℕ) : ℝ) / 255 ≤ 0.03928 ↔ (v : ℕ) ≤ 10 := by
  rw [div_le_iff₀ (by norm_num : (0 : ℝ) < 255)]
  constructor
  · intro h
    by_contra hc
    push_neg at hc
    have h11n : 11 ≤ (v : ℕ) := hc
    have h11 : (11 : ℝ) ≤ ((v : ℕ) : ℝ) := by exact_mod_cast h11n
    linarith
  · intro h
    have h10 : ((v : ℕ) : ℝ) ≤ 10 := by exact_mod_cast h
    linarith

lemma component_nonneg (v : Fin 256) : 0 ≤ Color.component_relative_luminance v := by
  rw [component_def]
  split_ifs with h
  · positivity
  · exact Real.rpow_nonneg (by positivity) _

lemma component_val_le (v : Fin 256) : ((v : ℕ) : ℝ) ≤ 255 := by
  have := v.isLt
  have hn : (v : ℕ) ≤ 255 := by omega
  exact_mod_cast hn

/-- The gamma-branch base `(c + 0.055) / 1.055` stays at most 1. -/
lemma component_base_le_one (v : Fin 256) :
    ((((v : ℕ) : ℝ) / 255 + 0.055) / 1.055) ≤ 1 := by
  rw [div_le_one (by norm_num : (0 : ℝ) < 1.055)]
  have h1 : ((v : ℕ) : ℝ) / 255 ≤ 1 := by
    rw [div_le_one (by norm_num : (0 : ℝ) < 255)]
    exact component_val_le v
  linarith

lemma component_le_one (v : Fin 256) : Color.component_relative_luminance v ≤ 1 := by
  have hv := component_val_le v
  rw [component_def]
  split_ifs with h
  · calc ((v : ℕ) : ℝ) / 255 / 12.92 ≤ (255 : ℝ) / 255 / 12.92 := by gcongr
      _ ≤ 1 := by norm_num
  · exact Real.rpow_le_one (by positivity) (component_base_le_one v) (by norm_num)

lemma component_zero : Color.component_relative_luminance 0 = 0 := by
  rw [component_def]
  norm_num

lemma component_255 : Color.component_relative_luminance 255 = 1 := by
  have hval : ((255 : Fin 256) : ℕ) = 255 := rfl
  rw [component_def, hval]
  rw [if_neg (by norm_num)]
  rw [show ((((255 : ℕ) : ℝ)) / 255 + 0.055) / 1.055 = 1 by norm_num, Real.one_rpow]

lemma component_eq_zero_iff (v : Fin 256) :
    Color.component_relative_luminance v = 0 ↔ v = 0 := by
  constructor
  · intro h
    rw [component_def] at h
    split_ifs at h with hc
    · rcases div_eq_zero_iff.mp h with h1 | h1
      · rcases div_eq_zero_iff.mp h1 with h2 | h2
        · have hv : (v : ℕ) = 0 := by exact_mod_cast h2
          exact Fin.ext hv
        · norm_num at h2
      · norm_num at h1
    · exfalso
      have hpos : 0 < ((((v : ℕ) : ℝ) / 255 + 0.055) / 1.055) ^ (2.4 : ℝ) :=
        Real.rpow_pos_of_pos (by positivity) _
      rw [h] at hpos
      exact lt_irrefl 0 hpos
  · rintro rfl
    exact component_zero

lemma component_eq_one_iff (v : Fin 256) :
    Color.component_relative_luminance v = 1 ↔ v = 255 := by
  constructor
  · intro h
    rw [component_def] at h
    split_ifs at h with hc
    · exfalso
      have h10 : (v : ℕ) ≤ 10 := (component_cond_iff v).mp hc
      have h10r : ((v : ℕ) : ℝ) ≤ 10 := by exact_mod_cast h10
      field_simp at h
      linarith
  -- the else branch: the base is in (0, 1] and the power equals 1, so the
  -- base is 1 and the channel is 255
    · have hv := component_val_le v
      have hx0 : (0 : ℝ) ≤ (((v : ℕ) : ℝ) / 255 + 0.055) / 1.055 := by positivity
      have hx1 : (((v : ℕ) : ℝ) / 255 + 0.055) / 1.055 ≤ 1 := component_base_le_one v
      by_cases hlt : (((v : ℕ) : ℝ) / 255 + 0.055) / 1.055 < 1
      · exfalso
        have hl1 := Real.rpow_lt_one hx0 hlt (by norm_num : (0 : ℝ) < 2.4)
        rw [h] at hl1
        exact lt_irrefl 1 hl1
      · have hxeq : (((v : ℕ) : ℝ) / 255 + 0.055) / 1.055 = 1 :=
          le_antisymm hx1 (not_lt.mp hlt)
        have hveq : ((v : ℕ) : ℝ) = 255 := by
          field_simp at hxeq
          linarith
        have hn : (v : ℕ) = 255 := by exact_mod_cast hveq
        exact Fin.ext hn
  · rintro rfl
    exact component_255

/-- The interesting step of monotonicity: the largest value of the linear
branch, at channel 10, does not exceed the smallest value of the gamma
branch, at channel 11.  Settled by raising both sides to the fifth power,
which turns `x ^ 2.4` into the rational power `x ^ 12`. -/
lemma component_cross_le :
    (10 : ℝ) / 255 / 12.92 ≤ (((11 : ℝ) / 255 + 0.055) / 1.055) ^ (2.4 : ℝ) := by
  have hX : (0 : ℝ) < ((11 : ℝ) / 255 + 0.055) / 1.055 := by norm_num
  have hpow5 : ((((11 : ℝ) / 255 + 0.055) / 1.055) ^ (2.4 : ℝ)) ^ (5 : ℕ)
      = (((11 : ℝ) / 255 + 0.055) / 1.055) ^ (12 : ℕ) := by
    rw [← Real.rpow_natCast ((((11 : ℝ) / 255 + 0.055) / 1.055) ^ (2.4 : ℝ)) 5,
      ← Real.rpow_mul hX.le]
    rw [show ((2.4 : ℝ) * ((5 : ℕ) : ℝ)) = ((12 : ℕ) : ℝ) by norm_num]
    rw [Real.rpow_natCast]
  refine le_of_pow_le_pow_left₀ (by norm_num : (5 : ℕ) ≠ 0) (Real.rpow_nonneg hX.le _) ?_
  rw [hpow5]
  norm_num

lemma component_mono (v w : Fin 256) (hvw : (v : ℕ) ≤ (w : ℕ)) :
    Color.component_relative_luminance v ≤ Color.component_relative_luminance w := by
  have hcast : ((v : ℕ) : ℝ) ≤ ((w : ℕ) : ℝ) := by exact_mod_cast hvw
  rw [component_def, component_def]
  by_cases hv : (v : ℕ) ≤ 10 <;> by_cases hw : (w : ℕ) ≤ 10
  · rw [if_pos ((component_cond_iff v).mpr hv), if_pos ((component_cond_iff w).mpr hw)]
    gcongr
  · rw [if_pos ((component_cond_iff v).mpr hv), if_neg]
    · have hv10 : ((v : ℕ) : ℝ) ≤ 10 := by exact_mod_cast hv
      have hw11 : (11 : ℝ) ≤ ((w : ℕ) : ℝ) := by
        have h11 : 11 ≤ (w : ℕ) := by omega
        exact_mod_cast h11
      calc ((v : ℕ) : ℝ) / 255 / 12.92 ≤ (10 : ℝ) / 255 / 12.92 := by gcongr
        _ ≤ (((11 : ℝ) / 255 + 0.055) / 1.055) ^ (2.4 : ℝ) := component_cross_le
        _ ≤ ((((w : ℕ) : ℝ) / 255 + 0.055) / 1.055) ^ (2.4 : ℝ) :=
            Real.rpow_le_rpow (by norm_num) (by gcongr) (by norm_num)
    · rw [component_cond_iff]
      omega
  · omega
  · rw [if_neg, if_neg]
    · have hv0 : (0 : ℝ) ≤ (((v : ℕ) : ℝ) / 255 + 0.055) / 1.055 := by positivity
      exact Real.rpow_le_rpow hv0 (by gcongr) (by norm_num)
    · rw [component_cond_iff]
      omega
    · rw [component_cond_iff]
      omega

/-! ### Relative luminance lemmas -/

/-- Unfolding of `relative_luminance` with the `let`s reduced. -/
lemma luminance_def (c : Color) :
    c.relative_luminance =
      0.2126 * Color.component_relative_luminance c.r
        + 0.7152 * Color.component_relative_luminance c.g
        + 0.0722 * Color.component_relative_luminance c.b := rfl

lemma luminance_nonneg (c : Color) : 0 ≤ c.relative_luminance := by
  rw [luminance_def]
  have hr := component_nonneg c.r
  have hg := component_nonneg c.g
  have hb := component_nonneg c.b
  linarith

lemma luminance_le_one (c : Color) : c.relative_luminance ≤ 1 := by
  rw [luminance_def]
  have hr := component_le_one c.r
  have hg := component_le_one c.g
  have hb := component_le_one c.b
  linarith

lemma luminance_black : (Color.new 0 0 0).relative_luminance = 0 := by
  rw [luminance_def]
  have h0 : Color.component_relative_luminance 0 = 0 := component_zero
  show 0.2126 * Color.component_relative_luminance 0
      + 0.7152 * Color.component_relative_luminance 0
      + 0.0722 * Color.component_relative_luminance 0 = 0
  rw [h0]
  ring

lemma luminance_white : (Color.new 255 255 255).relative_luminance = 1 := by
  rw [luminance_def]
  have h1 : Color.component_relative_luminance 255 = 1 := component_255
  show 0.2126 * Color.component_relative_luminance 255
      + 0.7152 * Color.component_relative_luminance 255
      + 0.0722 * Color.component_relative_luminance 255 = 1
  rw [h1]
  norm_num

lemma luminance_eq_zero_iff (c : Color) :
    c.relative_luminance = 0 ↔ c = Color.new 0 0 0 := by
  constructor
  · intro h
    rw [luminance_def] at h
    have hr := component_nonneg c.r
    have hg := component_nonneg c.g
    have hb := component_nonneg c.b
    have hr0 : Color.component_relative_luminance c.r = 0 := by linarith
    have hg0 : Color.component_relative_luminance c.g = 0 := by linarith
    have hb0 : Color.component_relative_luminance c.b = 0 := by linarith
    obtain ⟨r, g, b⟩ := c
    rw [show (Color.mk r g b).r = r from rfl] at hr0
    rw [show (Color.mk r g b).g = g from rfl] at hg0
    rw [show (Color.mk r g b).b = b from rfl] at hb0
    rw [(component_eq_zero_iff r).mp hr0, (component_eq_zero_iff g).mp hg0,
      (component_eq_zero_iff b).mp hb0]
    rfl
  · rintro rfl
    exact luminance_black

lemma luminance_eq_one_iff (c : Color) :
    c.relative_luminance = 1 ↔ c = Color.new 255 255 255 := by
  constructor
  · intro h
    rw [luminance_def] at h
    have hr := component_le_one c.r
    have hg := component_le_one c.g
    have hb := component_le_one c.b
    have hr1 : Color.component_relative_luminance c.r = 1 := by linarith
    have hg1 : Color.component_relative_luminance c.g = 1 := by linarith
    have hb1 : Color.component_relative_luminance c.b = 1 := by linarith
    obtain ⟨r, g, b⟩ := c
    rw [show (Color.mk r g b).r = r from rfl] at hr1
    rw [show (Color.mk r g b).g = g from rfl] at hg1
    rw [show (Color.mk r g b).b = b from rfl] at hb1
    rw [(component_eq_one_iff r).mp hr1, (component_eq_one_iff g).mp hg1,
      (component_eq_one_iff b).mp hb1]
    rfl
  · rintro rfl
    exact luminance_white

/-! ### Contrast ratio lemmas -/

/-- Unfolding of `contrast_ratio` with the `let`s reduced. -/
lemma contrast_def (a b : Color) :
    a.contrast_ratio b =
      ((if a.relative_luminance > b.relative_luminance
          then (a.relative_luminance, b.relative_luminance)
          else (b.relative_luminance, a.relative_luminance)).1 + 0.05)
        / ((if a.relative_luminance > b.relative_luminance
          then (a.relative_luminance, b.relative_luminance)
          else (b.relative_luminance, a.relative_luminance)).2 + 0.05) := rfl

/-- The branch in the source computes the pointwise `max` and `min` of the
two luminances. -/
lemma contrast_eq_max_min (a b : Color) :
    a.contrast_ratio b =
      (max a.relative_luminance b.relative_luminance + 0.05)
        / (min a.relative_luminance b.relative_luminance + 0.05) := by
  rw [contrast_def]
  by_cases h : a.relative_luminance > b.relative_luminance
  · rw [if_pos h]
    rw [max_eq_left (le_of_lt h), min_eq_right (le_of_lt h)]
  · rw [if_neg h]
    push_neg at h
    rw [max_eq_right h, min_eq_left h]

lemma contrast_denom_pos (a b : Color) :
    0 < min a.relative_luminance b.relative_luminance + 0.05 := by
  have ha := luminance_nonneg a
  have hb := luminance_nonneg b
  have hmin : 0 ≤ min a.relative_luminance b.relative_luminance := le_min ha hb
  linarith

lemma contrast_one_le (a b : Color) : 1 ≤ a.contrast_ratio b := by
  rw [contrast_eq_max_min, one_le_div (contrast_denom_pos a b)]
  have h := min_le_max (a := a.relative_luminance) (b := b.relative_luminance)
  linarith

lemma contrast_le_21 (a b : Color) : a.contrast_ratio b ≤ 21 := by
  rw [contrast_eq_max_min, div_le_iff₀ (contrast_denom_pos a b)]
  have hmax : max a.relative_luminance b.relative_luminance ≤ 1 :=
    max_le (luminance_le_one a) (luminance_le_one b)
  have hmin : 0 ≤ min a.relative_luminance b.relative_luminance :=
    le_min (luminance_nonneg a) (luminance_nonneg b)
  linarith

lemma contrast_eq_one_iff (a b : Color) :
    a.contrast_ratio b = 1 ↔ a.relative_luminance = b.relative_luminance := by
  rw [contrast_eq_max_min, div_eq_one_iff_eq (ne_of_gt (contrast_denom_pos a b))]
  constructor
  · intro h
    have hmm : max a.relative_luminance b.relative_luminance
        = min a.relative_luminance b.relative_luminance := by linarith
    rcases le_total a.relative_luminance b.relative_luminance with hle | hle
    · rw [max_eq_right hle, min_eq_left hle] at hmm
      exact hmm.symm
    · rw [max_eq_left hle, min_eq_right hle] at hmm
      exact hmm
  · intro h
    rw [h, max_self, min_self]

lemma contrast_eq_21_iff (a b : Color) :
    a.contrast_ratio b = 21 ↔
      (a.relative_luminance = 0 ∧ b.relative_luminance = 1) ∨
      (a.relative_luminance = 1 ∧ b.relative_luminance = 0) := by
  rw [contrast_eq_max_min, div_eq_iff (ne_of_gt (contrast_denom_pos a b))]
  have h1a := luminance_le_one a
  have h1b := luminance_le_one b
  have h0a := luminance_nonneg a
  have h0b := luminance_nonneg b
  constructor
  · intro h
    have hmaxle : max a.relative_luminance b.relative_luminance ≤ 1 := max_le h1a h1b
    have hminge : 0 ≤ min a.relative_luminance b.relative_luminance := le_min h0a h0b
    have hle := min_le_max (a := a.relative_luminance) (b := b.relative_luminance)
    have hmin0 : min a.relative_luminance b.relative_luminance = 0 := by linarith
    have hmax1 : max a.relative_luminance b.relative_luminance = 1 := by linarith
    rcases le_total a.relative_luminance b.relative_luminance with hab | hab
    · rw [min_eq_left hab] at hmin0
      rw [max_eq_right hab] at hmax1
      exact Or.inl ⟨hmin0, hmax1⟩
    · rw [min_eq_right hab] at hmin0
      rw [max_eq_left hab] at hmax1
      exact Or.inr ⟨hmax1, hmin0⟩
  · rintro (⟨ha, hb⟩ | ⟨ha, hb⟩) <;> rw [ha, hb]
    · rw [max_eq_right (by norm_num : (0 : ℝ) ≤ 1), min_eq_left (by norm_num : (0 : ℝ) ≤ 1)]
      norm_num
    · rw [max_eq_left (by norm_num : (0 : ℝ) ≤ 1), min_eq_right (by norm_num : (0 : ℝ) ≤ 1)]
      norm_num

lemma contrast_comm (a b : Color) : a.contrast_ratio b = b.contrast_ratio a := by
  rw [contrast_eq_max_min, contrast_eq_max_min, max_comm, min_comm]

/-! ### Claim theorems: luminance and contrast -/

/-- C1: for every `Color` with channels `(r, g, b)`, `relative_luminance`
returns exactly `0.2126 * f(r) + 0.7152 * f(g) + 0.0722 * f(b)` where `f`
normalises by 255 and applies the piecewise sRGB transfer function with
threshold `0.03928`, exponent `2.4` — the code's formula coincides with the
spec's formula (real arithmetic standing for `f64`). -/
theorem relative_luminance_matches_spec :
    ∀ c : Color, c.relative_luminance = specRelativeLuminance c :=
  fun _ => rfl

/-- C5: `relative_luminance` always lies in `[0, 1]`, is exactly 0 on pure
black and exactly 1 on pure white. -/
theorem relative_luminance_range :
    (∀ c : Color, 0 ≤ c.relative_luminance ∧ c.relative_luminance ≤ 1) ∧
    (Color.new 0 0 0).relative_luminance = 0 ∧
    (Color.new 255 255 255).relative_luminance = 1 :=
  ⟨fun c => ⟨luminance_nonneg c, luminance_le_one c⟩, luminance_black, luminance_white⟩

/-- C2: `contrast_ratio` always lies in `[1, 21]`; it equals 1 exactly when
the two relative luminances are equal, it equals 21 exactly for pure black
against pure white (in either order), and black against white gives
exactly 21. -/
theorem contrast_ratio_bounds :
    ∀ a b : Color,
      (1 ≤ a.contrast_ratio b ∧ a.contrast_ratio b ≤ 21) ∧
      (a.contrast_ratio b = 1 ↔ a.relative_luminance = b.relative_luminance) ∧
      (a.contrast_ratio b = 21 ↔
        (a = Color.new 0 0 0 ∧ b = Color.new 255 255 255) ∨
        (a = Color.new 255 255 255 ∧ b = Color.new 0 0 0)) ∧
      (Color.new 0 0 0).contrast_ratio (Color.new 255 255 255) = 21 := by
  intro a b
  refine ⟨⟨contrast_one_le a b, contrast_le_21 a b⟩, contrast_eq_one_iff a b, ?_, ?_⟩
  · rw [contrast_eq_21_iff a b, luminance_eq_zero_iff, luminance_eq_one_iff,
      luminance_eq_one_iff, luminance_eq_zero_iff]
  · rw [contrast_eq_21_iff]
    exact Or.inl ⟨luminance_black, luminance_white⟩

/-- C6: the contrast ratio is symmetric in its two colors. -/
theorem contrast_ratio_symm :
    ∀ a b : Color, a.contrast_ratio b = b.contrast_ratio a :=
  contrast_comm

/-- C7: the contrast ratio of a color with itself is 1, and more generally
the contrast ratio of any two colors with equal relative luminance is 1. -/
theorem contrast_ratio_self_eq_one :
    (∀ a : Color, a.contrast_ratio a = 1) ∧
    (∀ a b : Color,
      a.relative_luminance = b.relative_luminance → a.contrast_ratio b = 1) :=
  ⟨fun a => (contrast_eq_one_iff a a).mpr rfl,
    fun a b h => (contrast_eq_one_iff a b).mpr h⟩

/-- C8: `relative_luminance` is monotone non-decreasing in each channel
independently: raising one channel's raw value while fixing the other two
never decreases the luminance. -/
theorem relative_luminance_monotone :
    ∀ r g b r2 g2 b2 : Fin 256,
      (r < r2 →
        (Color.new r g b).relative_luminance ≤ (Color.new r2 g b).relative_luminance) ∧
      (g < g2 →
        (Color.new r g b).relative_luminance ≤ (Color.new r g2 b).relative_luminance) ∧
      (b < b2 →
        (Color.new r g b).relative_luminance ≤ (Color.new r g b2).relative_luminance) := by
  intro r g b r2 g2 b2
  refine ⟨fun h => ?_, fun h => ?_, fun h => ?_⟩ <;>
    rw [luminance_def, luminance_def] <;> simp only [Color.new]
  · have hm := component_mono r r2 (le_of_lt h)
    linarith
  · have hm := component_mono g g2 (le_of_lt h)
    linarith
  · have hm := component_mono b b2 (le_of_lt h)
    linarith

/-- C9: `rgb` returns the stored channels unchanged, so tuple construction
and the accessor round-trip in both directions. -/
theorem rgb_roundtrip :
    ∀ (c : Color) (r g b : Fin 256),
      Color.from_rgb_tuple (Color.rgb c) = c ∧ (Color.new r g b).rgb = (r, g, b) :=
  fun _ _ _ _ => ⟨rfl, rfl⟩

/-! ### Parser lemmas -/

lemma to_digit16_le (ch : Char) (d : ℕ) (h : to_digit16 ch = some d) : d ≤ 15 := by
  unfold to_digit16 at h
  split_ifs at h with h1 h2 h3 <;> simp only [Option.some.injEq] at h <;> omega

lemma to_digit16_not_sign (ch : Char) (d : ℕ) (h : to_digit16 ch = some d) :
    ch ≠ '+' ∧ ch ≠ '-' := by
  constructor <;> rintro rfl
  · exact Option.noConfusion ((show to_digit16 '+' = none by decide).symm.trans h)
  · exact Option.noConfusion ((show to_digit16 '-' = none by decide).symm.trans h)

lemma radix16_step_add_eq (acc : Fin 256) (ch : Char) (d : ℕ)
    (hd : to_digit16 ch = some d) (hle : (acc : ℕ) * 16 + d ≤ 255) :
    radix16_step_add acc ch = some (((acc : ℕ) * 16 + d : ℕ) : Fin 256) := by
  unfold radix16_step_add
  rw [hd]
  show (if h : (acc : ℕ) * 16 ≤ 255 then
      if h2 : (acc : ℕ) * 16 + d ≤ 255 then some (⟨(acc : ℕ) * 16 + d, by omega⟩ : Fin 256)
      else none
    else none) = some (((acc : ℕ) * 16 + d : ℕ) : Fin 256)
  rw [dif_pos (show (acc : ℕ) * 16 ≤ 255 by omega), dif_pos hle]
  rw [show ((((acc : ℕ) * 16 + d : ℕ)) : Fin 256) = ⟨(acc : ℕ) * 16 + d, by omega⟩ from
    Fin.ext (Fin.val_cast_of_lt (by omega))]

/-- Parsing a two-character field whose characters are both hexadecimal
digits yields the base-16 value of the field. -/
lemma radix16_pair (a b : Char) (d1 d2 : ℕ)
    (h1 : to_digit16 a = some d1) (h2 : to_digit16 b = some d2) :
    u8_from_str_radix16 [a, b] = some ((16 * d1 + d2 : ℕ) : Fin 256) := by
  obtain ⟨ha1, _⟩ := to_digit16_not_sign a d1 h1
  have hd1 : d1 ≤ 15 := to_digit16_le a d1 h1
  have hd2 : d2 ≤ 15 := to_digit16_le b d2 h2
  have h0 : ((0 : Fin 256) : ℕ) = 0 := rfl
  have hacc1 : ((((0 : Fin 256) : ℕ) * 16 + d1 : ℕ) : Fin 256) = ((d1 : ℕ) : Fin 256) := by
    rw [h0]
    norm_num
  have hv1 : (((d1 : ℕ) : Fin 256) : ℕ) = d1 := Fin.val_cast_of_lt (by omega)
  show (if a = '+' then
      match [b] with
      | [] => none
      | _ => List.foldlM radix16_step_add 0 [b]
    else List.foldlM radix16_step_add 0 [a, b]) = some ((16 * d1 + d2 : ℕ) : Fin 256)
  rw [if_neg ha1]
  simp only [List.foldlM_cons, List.foldlM_nil, Option.bind_eq_bind, Option.pure_def]
  rw [radix16_step_add_eq 0 a d1 h1 (by rw [h0]; omega), hacc1]
  simp only [Option.some_bind]
  rw [radix16_step_add_eq ((d1 : ℕ) : Fin 256) b d2 h2 (by rw [hv1]; omega)]
  simp only [Option.some_bind, Option.some.injEq]
  apply Fin.ext
  simp only [Fin.val_natCast]
  omega

/-- A two-character field that fails to parse contains a non-hex character. -/
lemma radix16_pair_err (a b : Char) (h : u8_from_str_radix16 [a, b] = none) :
    to_digit16 a = none ∨ to_digit16 b = none := by
  by_contra hc
  push_neg at hc
  obtain ⟨hA, hB⟩ := hc
  obtain ⟨d1, h1⟩ := Option.ne_none_iff_exists'.mp hA
  obtain ⟨d2, h2⟩ := Option.ne_none_iff_exists'.mp hB
  rw [radix16_pair a b d1 d2 h1 h2] at h
  exact Option.noConfusion h

lemma strSlice_mem (s : List Char) (a b : ℕ) (t : List Char)
    (h : strSlice s a b = some t) : ∀ ch ∈ t, ch ∈ s := by
  unfold strSlice at h
  split_ifs at h
  · injection h with hx
    subst hx
    intro ch hch
    exact List.drop_subset a s (List.take_subset _ _ hch)

lemma strSlice_len (s : List Char) (a b : ℕ) (t : List Char)
    (h : strSlice s a b = some t) : t.length = b - a := by
  unfold strSlice at h
  split_ifs at h with hc
  · injection h with hx
    subst hx
    obtain ⟨hab, hbs⟩ := hc
    rw [List.length_take, List.length_drop]
    rw [min_eq_left (by omega)]

/-- The three fixed-offset field slices on a list with at least 7 characters. -/
lemma strSlice_cons7 (c0 c1 c2 c3 c4 c5 c6 : Char) (rest : List Char) :
    strSlice (c0 :: c1 :: c2 :: c3 :: c4 :: c5 :: c6 :: rest) 1 3 = some [c1, c2] ∧
    strSlice (c0 :: c1 :: c2 :: c3 :: c4 :: c5 :: c6 :: rest) 3 5 = some [c3, c4] ∧
    strSlice (c0 :: c1 :: c2 :: c3 :: c4 :: c5 :: c6 :: rest) 5 7 = some [c5, c6] := by
  have hlen : (c0 :: c1 :: c2 :: c3 :: c4 :: c5 :: c6 :: rest).length = 7 + rest.length := by
    simp only [List.length_cons]
    omega
  refine ⟨?_, ?_, ?_⟩ <;> unfold strSlice <;> rw [if_pos ⟨by omega, by rw [hlen]; omega⟩] <;> rfl

/-- Core behaviour of `from_str` on any input of length at least 7 whose
characters at indices 1 through 6 are hexadecimal digits: the first character
and everything from index 7 on are never examined. -/
lemma color_from_str_hex (c0 c1 c2 c3 c4 c5 c6 : Char) (rest : List Char)
    (d1 d2 d3 d4 d5 d6 : ℕ)
    (h1 : to_digit16 c1 = some d1) (h2 : to_digit16 c2 = some d2)
    (h3 : to_digit16 c3 = some d3) (h4 : to_digit16 c4 = some d4)
    (h5 : to_digit16 c5 = some d5) (h6 : to_digit16 c6 = some d6) :
    color_from_str (c0 :: c1 :: c2 :: c3 :: c4 :: c5 :: c6 :: rest)
      = .ok (Color.new ((16 * d1 + d2 : ℕ) : Fin 256) ((16 * d3 + d4 : ℕ) : Fin 256)
          ((16 * d5 + d6 : ℕ) : Fin 256)) := by
  obtain ⟨hs1, hs2, hs3⟩ := strSlice_cons7 c0 c1 c2 c3 c4 c5 c6 rest
  unfold color_from_str
  simp only [hs1, hs2, hs3, radix16_pair c1 c2 d1 d2 h1 h2, radix16_pair c3 c4 d3 d4 h3 h4,
    radix16_pair c5 c6 d5 d6 h5 h6]

/-- A `from_str` call panics only when the input is too short for one of the
three slices. -/
lemma color_from_str_oob_short (s : List Char) (h : color_from_str s = .oob) :
    s.length < 7 := by
  by_contra hlen
  push_neg at hlen
  have hs1 : strSlice s 1 3 = some ((s.drop 1).take 2) := by
    unfold strSlice
    rw [if_pos ⟨by omega, by omega⟩]
  have hs2 : strSlice s 3 5 = some ((s.drop 3).take 2) := by
    unfold strSlice
    rw [if_pos ⟨by omega, by omega⟩]
  have hs3 : strSlice s 5 7 = some ((s.drop 5).take 2) := by
    unfold strSlice
    rw [if_pos ⟨by omega, by omega⟩]
  unfold color_from_str at h
  simp only [hs1] at h
  cases hp1 : u8_from_str_radix16 ((s.drop 1).take 2) with
  | none =>
    simp only [hp1] at h
    exact FromStrResult.noConfusion h
  | some r =>
    simp only [hp1, hs2] at h
    cases hp2 : u8_from_str_radix16 ((s.drop 3).take 2) with
    | none =>
      simp only [hp2] at h
      exact FromStrResult.noConfusion h
    | some g =>
      simp only [hp2, hs3] at h
      cases hp3 : u8_from_str_radix16 ((s.drop 5).take 2) with
      | none =>
        simp only [hp3] at h
        exact FromStrResult.noConfusion h
      | some b =>
        simp only [hp3] at h
        exact FromStrResult.noConfusion h

/-- A returned parse error always comes from a non-hex character in the
input: each extracted field has exactly two characters, and a two-character
field only fails when one of its characters is not a hex digit. -/
lemma color_from_str_err_nonhex (s : List Char) (h : color_from_str s = .err) :
    ∃ ch ∈ s, to_digit16 ch = none := by
  unfold color_from_str at h
  have field_case : ∀ t : List Char, ∀ a b : ℕ,
      strSlice s a b = some t → t.length = 2 → u8_from_str_radix16 t = none →
      ∃ ch ∈ s, to_digit16 ch = none := by
    intro t a b hslice htwo hparse
    match t, htwo with
    | [x, y], _ =>
      rcases radix16_pair_err x y hparse with hx | hy
      · exact ⟨x, strSlice_mem s a b [x, y] hslice x (by simp), hx⟩
      · exact ⟨y, strSlice_mem s a b [x, y] hslice y (by simp), hy⟩
  cases hs1 : strSlice s 1 3 with
  | none =>
    simp only [hs1] at h
    exact FromStrResult.noConfusion h
  | some f1 =>
    simp only [hs1] at h
    cases hp1 : u8_from_str_radix16 f1 with
    | none =>
      exact field_case f1 1 3 hs1 (by rw [strSlice_len s 1 3 f1 hs1]) hp1
    | some r =>
      simp only [hp1] at h
      cases hs2 : strSlice s 3 5 with
      | none =>
        simp only [hs2] at h
        exact FromStrResult.noConfusion h
      | some f2 =>
        simp only [hs2] at h
        cases hp2 : u8_from_str_radix16 f2 with
        | none =>
          exact field_case f2 3 5 hs2 (by rw [strSlice_len s 3 5 f2 hs2]) hp2
        | some g =>
          simp only [hp2] at h
          cases hs3 : strSlice s 5 7 with
          | none =>
            simp only [hs3] at h
            exact FromStrResult.noConfusion h
          | some f3 =>
            simp only [hs3] at h
            cases hp3 : u8_from_str_radix16 f3 with
            | none =>
              exact field_case f3 5 7 hs3 (by rw [strSlice_len s 5 7 f3 hs3]) hp3
            | some b =>
              simp only [hp3] at h
              exact FromStrResult.noConfusion h

/-! ### Claim theorems: parsing -/

/-- C3 (amended): `from_hex` is the only fallible operation, but its two
failure modes are distinct: it returns a parse error to the caller only when
one of the extracted two-character fields fails Rust's base-16 parse — which
requires a non-hexadecimal character in the input — while an input too short
for one of the fixed-offset slices makes the call panic (an out-of-bounds
slice) instead of returning an error.  In particular `from_hex("#GGGGGG")`
returns the parse error and `from_hex("#12")` panics. -/
theorem from_str_failure_modes :
    (∀ s : List Char, color_from_str s = .err → ∃ ch ∈ s, to_digit16 ch = none) ∧
    (∀ s : List Char, color_from_str s = .oob → s.length < 7) ∧
    color_from_str (String.toList "#GGGGGG") = .err ∧
    color_from_str (String.toList "#12") = .oob :=
  ⟨color_from_str_err_nonhex, color_from_str_oob_short, by decide, by decide⟩

/-- C3 counterexample: the claim as stated is false on the code — the
too-short input `"#12"` makes `from_hex` panic on an out-of-range slice
rather than return the parse error, and the input `"#+1+1+1"`, whose fields
all contain the non-hexadecimal character `'+'`, parses successfully because
Rust's `u8::from_str_radix` accepts a leading sign. -/
theorem from_str_claim_c3_cex :
    color_from_str (String.toList "#12") = .oob ∧
    FromStrResult.oob ≠ FromStrResult.err ∧
    color_from_str (String.toList "#+1+1+1") = .ok (Color.new 1 1 1) := by
  refine ⟨by decide, by decide, by decide⟩

/-- C4: on a string `#RRGGBB` whose six digit characters are hexadecimal
digits of either case, `from_hex` succeeds and returns the color whose
channels are the base-16 values of the character pairs at indices `[1,3)`,
`[3,5)` and `[5,7)`. -/
theorem from_str_hex_form (c1 c2 c3 c4 c5 c6 : Char) (d1 d2 d3 d4 d5 d6 : ℕ)
    (h1 : to_digit16 c1 = some d1) (h2 : to_digit16 c2 = some d2)
    (h3 : to_digit16 c3 = some d3) (h4 : to_digit16 c4 = some d4)
    (h5 : to_digit16 c5 = some d5) (h6 : to_digit16 c6 = some d6) :
    color_from_str ['#', c1, c2, c3, c4, c5, c6]
      = .ok (Color.new ((16 * d1 + d2 : ℕ) : Fin 256) ((16 * d3 + d4 : ℕ) : Fin 256)
          ((16 * d5 + d6 : ℕ) : Fin 256)) :=
  color_from_str_hex '#' c1 c2 c3 c4 c5 c6 [] d1 d2 d3 d4 d5 d6 h1 h2 h3 h4 h5 h6

/-- C4 witness: the claim's concrete examples, upper, lower and zero. -/
theorem from_str_hex_form_witness :
    color_from_str (String.toList "#000000") = .ok (Color.new 0 0 0) ∧
    color_from_str (String.toList "#FFFFFF") = .ok (Color.new 255 255 255) ∧
    color_from_str (String.toList "#ffffff") = .ok (Color.new 255 255 255) :=
  ⟨from_str_hex_form '0' '0' '0' '0' '0' '0' 0 0 0 0 0 0 rfl rfl rfl rfl rfl rfl,
    from_str_hex_form 'F' 'F' 'F' 'F' 'F' 'F' 15 15 15 15 15 15 rfl rfl rfl rfl rfl rfl,
    from_str_hex_form 'f' 'f' 'f' 'f' 'f' 'f' 15 15 15 15 15 15 rfl rfl rfl rfl rfl rfl⟩

/-- C10: `from_hex` never validates the leading character or the overall
length beyond the three fixed-offset fields: any input of length at least 7
whose characters at indices 1 through 6 are hexadecimal digits parses
successfully, whatever the first character is and whatever follows index 6. -/
theorem from_str_ignores_head_tail (c0 c1 c2 c3 c4 c5 c6 : Char) (rest : List Char)
    (d1 d2 d3 d4 d5 d6 : ℕ)
    (h1 : to_digit16 c1 = some d1) (h2 : to_digit16 c2 = some d2)
    (h3 : to_digit16 c3 = some d3) (h4 : to_digit16 c4 = some d4)
    (h5 : to_digit16 c5 = some d5) (h6 : to_digit16 c6 = some d6) :
    color_from_str (c0 :: c1 :: c2 :: c3 :: c4 :: c5 :: c6 :: rest)
      = .ok (Color.new ((16 * d1 + d2 : ℕ) : Fin 256) ((16 * d3 + d4 : ℕ) : Fin 256)
          ((16 * d5 + d6 : ℕ) : Fin 256)) :=
  color_from_str_hex c0 c1 c2 c3 c4 c5 c6 rest d1 d2 d3 d4 d5 d6 h1 h2 h3 h4 h5 h6

/-- C10 witness: `"X12345678"` parses despite the missing `#` and the two
trailing characters. -/
theorem from_str_ignores_head_tail_witness :
    color_from_str (String.toList "X12345678") = .ok (Color.new 18 52 86) :=
  from_str_ignores_head_tail 'X' '1' '2' '3' '4' '5' '6' ['7', '8'] 1 2 3 4 5 6
    rfl rfl rfl rfl rfl rfl

end WcagContrast
